import Mathlib

/-!
Shallow embedding of the LC-3 virtual machine (`src/lc3.c`) and proofs
about its specification claims.

Machine words are modelled as `Nat` kept below `M = 2 ^ 16`; every place
the C code truncates to `uint16_t` is an explicit `% M`.  The host input
stream is a list of pending bytes, the host output a list of emitted
bytes.  The `running` flag, the `abort()` exit and the
`restore_input_buffering` call of `main` are modelled as fields of the
configuration.
-/

namespace LC3

/-- The 16-bit modulus `2 ^ 16`; register and memory cells hold values below it. -/
def M : Nat := 65536

/-- Pointwise update of a `Nat`-indexed cell array (register file or memory). -/
def setCell (f : Nat → Nat) (i v : Nat) : Nat → Nat :=
  fun x => if x = i then v else f x

/-- Machine configuration: the ten registers of the source's `reg` array
(R0..R7 at indices 0..7, PC at 8, COND at 9), the 65536-word `memory`
array, the pending host input bytes, the host output emitted so far, the
`running` flag, whether `abort()` has been reached, and whether
`restore_input_buffering` has run. -/
structure Config where
  reg : Nat → Nat
  mem : Nat → Nat
  input : List Nat
  output : List Nat
  running : Bool
  aborted : Bool
  terminalRestored : Bool

/-- `check_key` from the source: non-blocking poll, true iff a host input
byte is pending. -/
def check_key (input : List Nat) : Bool :=
  !input.isEmpty

/-- `mem_write` from the source: unconditional store. -/
def mem_write (address value : Nat) (mem : Nat → Nat) : Nat → Nat :=
  setCell mem address value

/-- `mem_read` from the source: a read of the keyboard status register
`0xFE00` first polls the host; if a byte is pending it stores `0x8000`
into cell `0xFE00` and the byte into cell `0xFE02`, consuming it,
otherwise it clears cell `0xFE00`; it then returns the cell at the
requested address.  Any other address is a plain load.  Returns the value
read, the updated memory and the remaining input. -/
def mem_read (address : Nat) (mem : Nat → Nat) (input : List Nat) :
    Nat × (Nat → Nat) × List Nat :=
  if address = 0xFE00 then
    match input with
    | b :: rest =>
      let mem1 := setCell (setCell mem 0xFE00 0x8000) 0xFE02 (b % M)
      (mem1 address, mem1, rest)
    | [] =>
      let mem1 := setCell mem 0xFE00 0
      (mem1 address, mem1, [])
  else
    (mem address, mem, input)

/-- `sign_extend` from the source.  The C condition
`(x >> (bit_count - 1)) & 1 == 1` parses as
`(x >> (bit_count - 1)) & (1 == 1)`, which tests bit `bit_count - 1` of
`x`; when it is set the code does `x |= 0xFFFF << bit_count`, truncated
to 16 bits by the `uint16_t` assignment. -/
def sign_extend (x : Nat) (bit_count : Nat) : Nat :=
  if (x >>> (bit_count - 1)) &&& 1 = 1 then
    (x ||| (0xFFFF <<< bit_count)) % M
  else
    x

/-- `update_condition_flags` from the source: `COND` (register 9) becomes
`FL_ZRO = 2` when `reg[r] = 0`, `FL_NEG = 4` when `reg[r] >> 15` is
non-zero, and `FL_POS = 1` otherwise. -/
def update_condition_flags (reg : Nat → Nat) (r : Nat) : Nat → Nat :=
  if reg r = 0 then setCell reg 9 2
  else if reg r >>> 15 ≠ 0 then setCell reg 9 4
  else setCell reg 9 1

/-- `op_add` from the source. -/
def op_add (instr : Nat) (c : Config) : Config :=
  let dr := (instr >>> 9) &&& 0x7
  let sr1 := (instr >>> 6) &&& 0x7
  let reg1 :=
    if (instr >>> 5) &&& 0x1 = 1 then
      setCell c.reg dr ((c.reg sr1 + sign_extend (instr &&& 0x1F) 5) % M)
    else
      setCell c.reg dr ((c.reg sr1 + c.reg (instr &&& 0x7)) % M)
  { c with reg := update_condition_flags reg1 dr }

/-- `op_and` from the source. -/
def op_and (instr : Nat) (c : Config) : Config :=
  let dr := (instr >>> 9) &&& 0x7
  let sr1 := (instr >>> 6) &&& 0x7
  let reg1 :=
    if (instr >>> 5) &&& 0x1 = 1 then
      setCell c.reg dr (c.reg sr1 &&& sign_extend (instr &&& 0x1F) 5)
    else
      setCell c.reg dr (c.reg sr1 &&& c.reg (instr &&& 0x7))
  { c with reg := update_condition_flags reg1 dr }

/-- `op_not` from the source: `~` on a `uint16_t` value is XOR with `0xFFFF`. -/
def op_not (instr : Nat) (c : Config) : Config :=
  let dr := (instr >>> 9) &&& 0x7
  let sr := (instr >>> 6) &&& 0x7
  let reg1 := setCell c.reg dr (c.reg sr ^^^ 0xFFFF)
  { c with reg := update_condition_flags reg1 dr }

/-- `op_br` from the source. -/
def op_br (instr : Nat) (c : Config) : Config :=
  if ((instr >>> 9) &&& 0x7) &&& c.reg 9 ≠ 0 then
    { c with reg := setCell c.reg 8 ((c.reg 8 + sign_extend (instr &&& 0x1FF) 9) % M) }
  else c

/-- `op_jmp` from the source. -/
def op_jmp (instr : Nat) (c : Config) : Config :=
  { c with reg := setCell c.reg 8 (c.reg ((instr >>> 6) &&& 0x7)) }

/-- `op_jsr` from the source.  Note the order: `reg[R7] = reg[R_PC]` runs
first, so in register mode the base register is read after `R7` was
overwritten. -/
def op_jsr (instr : Nat) (c : Config) : Config :=
  let reg1 := setCell c.reg 7 (c.reg 8)
  if (instr >>> 11) &&& 0x1 = 1 then
    { c with reg := setCell reg1 8 ((reg1 8 + sign_extend (instr &&& 0x7FF) 11) % M) }
  else
    { c with reg := setCell reg1 8 (reg1 ((instr >>> 6) &&& 0x7)) }

/-- `op_ld` from the source. -/
def op_ld (instr : Nat) (c : Config) : Config :=
  let dr := (instr >>> 9) &&& 0x7
  let r := mem_read ((c.reg 8 + sign_extend (instr &&& 0x1FF) 9) % M) c.mem c.input
  { c with reg := update_condition_flags (setCell c.reg dr r.1) dr,
           mem := r.2.1, input := r.2.2 }

/-- `op_ldi` from the source: two chained `mem_read`s. -/
def op_ldi (instr : Nat) (c : Config) : Config :=
  let dr := (instr >>> 9) &&& 0x7
  let r := mem_read ((c.reg 8 + sign_extend (instr &&& 0x1FF) 9) % M) c.mem c.input
  let r2 := mem_read r.1 r.2.1 r.2.2
  { c with reg := update_condition_flags (setCell c.reg dr r2.1) dr,
           mem := r2.2.1, input := r2.2.2 }

/-- `op_ldr` from the source. -/
def op_ldr (instr : Nat) (c : Config) : Config :=
  let dr := (instr >>> 9) &&& 0x7
  let r := mem_read ((c.reg ((instr >>> 6) &&& 0x7) + sign_extend (instr &&& 0x3F) 6) % M)
    c.mem c.input
  { c with reg := update_condition_flags (setCell c.reg dr r.1) dr,
           mem := r.2.1, input := r.2.2 }

/-- `op_lea` from the source. -/
def op_lea (instr : Nat) (c : Config) : Config :=
  let dr := (instr >>> 9) &&& 0x7
  let reg1 := setCell c.reg dr ((c.reg 8 + sign_extend (instr &&& 0x1FF) 9) % M)
  { c with reg := update_condition_flags reg1 dr }

/-- `op_st` from the source. -/
def op_st (instr : Nat) (c : Config) : Config :=
  { c with mem := mem_write ((c.reg 8 + sign_extend (instr &&& 0x1FF) 9) % M)
                    (c.reg ((instr >>> 9) &&& 0x7)) c.mem }

/-- `op_sti` from the source: one `mem_read` for the pointer, then a store. -/
def op_sti (instr : Nat) (c : Config) : Config :=
  let r := mem_read ((c.reg 8 + sign_extend (instr &&& 0x1FF) 9) % M) c.mem c.input
  { c with mem := mem_write r.1 (c.reg ((instr >>> 9) &&& 0x7)) r.2.1, input := r.2.2 }

/-- `op_str` from the source. -/
def op_str (instr : Nat) (c : Config) : Config :=
  { c with mem := mem_write ((c.reg ((instr >>> 6) &&& 0x7) + sign_extend (instr &&& 0x3F) 6) % M)
                    (c.reg ((instr >>> 9) &&& 0x7)) c.mem }

/-- `trap_getc` from the source: one blocking `getchar` into `R0`, no flag
update and no echo.  At end of input `getchar` yields `EOF = -1`, which the
`uint16_t` cast turns into `0xFFFF`. -/
def trap_getc (c : Config) : Config :=
  match c.input with
  | b :: rest => { c with reg := setCell c.reg 0 (b % M), input := rest }
  | [] => { c with reg := setCell c.reg 0 0xFFFF }

/-- `trap_out` from the source: `putc` emits the low byte of `R0`. -/
def trap_out (c : Config) : Config :=
  { c with output := c.output ++ [c.reg 0 % 256] }

/-- The byte-emission loop of `trap_puts`: walk the memory array from
index `i` until a zero word, emitting each word's low byte.  The fuel is
the number of array cells left; the C loop walks the raw array, so
running past index 65535 is out-of-bounds and the model stops there. -/
def puts_go (mem : Nat → Nat) (i : Nat) : Nat → List Nat
  | 0 => []
  | fuel + 1 =>
    if mem i = 0 then []
    else (mem i % 256) :: puts_go mem (i + 1) fuel

/-- `trap_puts` from the source. -/
def trap_puts (c : Config) : Config :=
  { c with output := c.output ++ puts_go c.mem (c.reg 0) (65536 - c.reg 0) }

/-- The bytes of the prompt string `"Enter a character: "`. -/
def promptBytes : List Nat :=
  [69, 110, 116, 101, 114, 32, 97, 32, 99, 104, 97, 114, 97, 99, 116, 101, 114, 58, 32]

/-- `trap_in` from the source: print the prompt, read one byte, echo it,
store it in `R0`. -/
def trap_in (c : Config) : Config :=
  match c.input with
  | b :: rest =>
    { c with reg := setCell c.reg 0 (b % M), input := rest,
             output := c.output ++ promptBytes ++ [b % M % 256] }
  | [] =>
    { c with reg := setCell c.reg 0 0xFFFF,
             output := c.output ++ promptBytes ++ [0xFFFF % 256] }

/-- The byte-emission loop of `trap_putsp`: for each word until a zero
word, emit the low byte, then the high byte only when it is non-zero.
Fuel as in `puts_go`. -/
def putsp_go (mem : Nat → Nat) (i : Nat) : Nat → List Nat
  | 0 => []
  | fuel + 1 =>
    if mem i = 0 then []
    else
      (mem i &&& 0xFF) ::
        ((if mem i >>> 8 ≠ 0 then [mem i >>> 8] else []) ++ putsp_go mem (i + 1) fuel)

/-- `trap_putsp` from the source. -/
def trap_putsp (c : Config) : Config :=
  { c with output := c.output ++ putsp_go c.mem (c.reg 0) (65536 - c.reg 0) }

/-- The bytes of `"HALT\n"` printed by `puts("HALT")`. -/
def haltBytes : List Nat := [72, 65, 76, 84, 10]

/-- `trap_halt` from the source. -/
def trap_halt (c : Config) : Config :=
  { c with output := c.output ++ haltBytes, running := false }

/-- `op_trap` from the source: stash the post-increment PC in `R7`, then
dispatch on the low 8 bits; the `switch` has no default case, so an
undefined vector falls through with no further effect. -/
def op_trap (instr : Nat) (c : Config) : Config :=
  let c1 := { c with reg := setCell c.reg 7 (c.reg 8) }
  let trapvect8 := instr &&& 0xFF
  if trapvect8 = 0x20 then trap_getc c1
  else if trapvect8 = 0x21 then trap_out c1
  else if trapvect8 = 0x22 then trap_puts c1
  else if trapvect8 = 0x23 then trap_in c1
  else if trapvect8 = 0x24 then trap_putsp c1
  else if trapvect8 = 0x25 then trap_halt c1
  else c1

/-- One iteration of the dispatch loop of `main`: fetch through
`mem_read` at PC, increment PC, dispatch on the top nibble.  The opcodes
`RTI = 8` and `RES = 13` reach the `abort()` arm.  A configuration that
is halted or aborted is left unchanged. -/
def step (c : Config) : Config :=
  if c.running && !c.aborted then
    let r := mem_read (c.reg 8) c.mem c.input
    let instruction := r.1
    let c1 : Config := { c with reg := setCell c.reg 8 ((c.reg 8 + 1) % M),
                                mem := r.2.1, input := r.2.2 }
    let opcode := instruction >>> 12
    if opcode = 1 then op_add instruction c1
      else if opcode = 5 then op_and instruction c1
      else if opcode = 9 then op_not instruction c1
      else if opcode = 0 then op_br instruction c1
      else if opcode = 12 then op_jmp instruction c1
      else if opcode = 4 then op_jsr instruction c1
      else if opcode = 2 then op_ld instruction c1
      else if opcode = 10 then op_ldi instruction c1
      else if opcode = 6 then op_ldr instruction c1
      else if opcode = 14 then op_lea instruction c1
      else if opcode = 3 then op_st instruction c1
      else if opcode = 11 then op_sti instruction c1
      else if opcode = 7 then op_str instruction c1
      else if opcode = 15 then op_trap instruction c1
      else { c1 with aborted := true }
  else c

/-- The `while (running)` loop of `main` with the code that follows it:
on normal exit `restore_input_buffering()` runs; once `abort()` has been
reached nothing further happens and the terminal is never restored.  The
fuel bounds the number of iterations modelled. -/
def mainLoop : Config → Nat → Config
  | c, 0 => c
  | c, fuel + 1 =>
    if c.aborted then c
    else if c.running then mainLoop (step c) fuel
    else { c with terminalRestored := true }

/-- `swap16` from the source. -/
def swap16 (x : Nat) : Nat :=
  ((x <<< 8) ||| (x >>> 8)) % M

/-- The words delivered by `fread(p, 2, k, file)` on a little-endian
host: each pair of file bytes becomes the host word `b0 + 256 * b1`; a
trailing odd byte yields no word, and reading stops after `k` words or at
end of file, whichever comes first. -/
def hostWords : List Nat → Nat → List Nat
  | b0 :: b1 :: rest, k + 1 => (b0 + 256 * b1) :: hostWords rest k
  | _, _ => []

/-- Store a list of words at consecutive addresses starting at `origin`,
as the loader's pointer walk does. -/
def storeAt (mem : Nat → Nat) (origin : Nat) : List Nat → (Nat → Nat)
  | [] => mem
  | w :: ws => storeAt (setCell mem origin w) (origin + 1) ws

/-- `read_image_file` from the source, on a file given as its byte list:
read the first two bytes as a word and `swap16` it to get `origin`;
compute `max_read = MAX_MEMORY - origin` in `uint16_t` arithmetic (note
the truncation: `65536 - 0` becomes `0`); `fread` up to `max_read` words
and store each, byte-swapped, from `mem[origin]` on.  A file shorter than
two bytes leaves `origin` uninitialized in C; the model loads nothing. -/
def read_image_file : List Nat → (Nat → Nat) → (Nat → Nat)
  | b0 :: b1 :: rest, mem =>
    let origin := swap16 (b0 + 256 * b1)
    let max_read := (65536 - origin) % M
    storeAt mem origin ((hostWords rest max_read).map swap16)
  | _, mem => mem

/-- Whether the next `step` from `c` performs a host-input operation:
fetching from `0xFE00`, executing a load family instruction whose
effective address (or, for LDI, whose indirection target) is `0xFE00`,
STI reading its pointer from `0xFE00`, or a GETC/IN trap.  Computed from
the machine state alone, mirroring the dispatch of `step`. -/
def usesInput (c : Config) : Bool :=
  if c.running && !c.aborted then
    if c.reg 8 = 0xFE00 then true
    else
      let instruction := c.mem (c.reg 8)
      let pc1 := (c.reg 8 + 1) % M
      let opcode := instruction >>> 12
      if opcode = 2 then
        decide ((pc1 + sign_extend (instruction &&& 0x1FF) 9) % M = 0xFE00)
      else if opcode = 10 then
        decide ((pc1 + sign_extend (instruction &&& 0x1FF) 9) % M = 0xFE00) ||
          decide (c.mem ((pc1 + sign_extend (instruction &&& 0x1FF) 9) % M) = 0xFE00)
      else if opcode = 6 then
        decide ((c.reg ((instruction >>> 6) &&& 0x7) + sign_extend (instruction &&& 0x3F) 6) % M
          = 0xFE00)
      else if opcode = 11 then
        decide ((pc1 + sign_extend (instruction &&& 0x1FF) 9) % M = 0xFE00)
      else if opcode = 15 then
        decide (instruction &&& 0xFF = 0x20) || decide (instruction &&& 0xFF = 0x23)
      else false
  else false

/-- Replace the pending host input of a configuration. -/
def setInput (c : Config) (i : List Nat) : Config :=
  { c with input := i }

/-- The input-independent observables of a configuration: registers,
memory, output, and the three status flags — everything except the
pending host input. -/
def obs (c : Config) : (Nat → Nat) × (Nat → Nat) × List Nat × Bool × Bool × Bool :=
  (c.reg, c.mem, c.output, c.running, c.aborted, c.terminalRestored)

/-- An all-zero configuration used to instantiate universally quantified
theorems at a concrete machine. -/
def zeroConfig : Config where
  reg := fun _ => 0
  mem := fun _ => 0
  input := []
  output := []
  running := true
  aborted := false
  terminalRestored := false

/-- Configuration about to execute `JSRR R7` (`0x41C0`) at `PC = 0x3000`,
with `R7 = 0x1234` and `COND = ZRO`. -/
def jsrrConfig : Config where
  reg := fun i => if i = 8 then 0x3000 else if i = 7 then 0x1234 else if i = 9 then 2 else 0
  mem := fun a => if a = 0x3000 then 0x41C0 else 0
  input := []
  output := []
  running := true
  aborted := false
  terminalRestored := false

/-- Boot-state configuration whose first instruction is `RTI` (`0x8000`)
at `PC = 0x3000`. -/
def rtiConfig : Config where
  reg := fun i => if i = 8 then 0x3000 else if i = 9 then 2 else 0
  mem := fun a => if a = 0x3000 then 0x8000 else 0
  input := []
  output := []
  running := true
  aborted := false
  terminalRestored := false

/-- Configuration for the C8 witness: `R0 = 0x3000`, a single word
`0x0041` (low byte `'A'`, high byte zero) followed by a zero word. -/
def putspConfig : Config where
  reg := fun i => if i = 0 then 0x3000 else 0
  mem := fun a => if a = 0x3000 then 0x41 else 0
  input := []
  output := []
  running := true
  aborted := false
  terminalRestored := false

/-- The claim's characterization of sign extension: `y` is a 16-bit
value, it agrees with `x` modulo `2 ^ n`, and every bit of `y` in
positions `n..15` equals bit `n - 1` of `x`. -/
def signExtSpec (x n y : Nat) : Prop :=
  y < M ∧ y % 2 ^ n = x % 2 ^ n ∧ ∀ i < 16, n ≤ i → y.testBit i = x.testBit (n - 1)

instance (x n y : Nat) : Decidable (signExtSpec x n y) := by
  unfold signExtSpec
  infer_instance

/-- The claim's characterization of the condition register after a write
of value `v`: `COND` is exactly one of `NEG = 4`, `ZRO = 2`, `POS = 1`;
it is `NEG` iff bit 15 of `v` is set, `ZRO` iff `v = 0`, `POS` iff bit 15
is clear and `v` is non-zero. -/
def condMatches (cond v : Nat) : Prop :=
  (cond = 4 ∨ cond = 2 ∨ cond = 1) ∧
  (cond = 4 ↔ v.testBit 15 = true) ∧
  (cond = 2 ↔ v = 0) ∧
  (cond = 1 ↔ (v.testBit 15 = false ∧ v ≠ 0))

instance (cond v : Nat) : Decidable (condMatches cond v) := by
  unfold condMatches
  infer_instance

/-- Spec-side view of an image payload: consecutive byte pairs as
big-endian 16-bit words; a trailing odd byte yields no word. -/
def beWords : List Nat → List Nat
  | b0 :: b1 :: rest => (256 * b0 + b1) :: beWords rest
  | _ => []

/-- Spec-side description of the PUTSP emission: for each word before
the first zero word, the low byte followed by the high byte only when
the high byte is non-zero — in particular a word with zero high byte
contributes exactly its low byte and no NUL. -/
def putspBytes (ws : List Nat) : List Nat :=
  ((ws.takeWhile fun w => w != 0).map fun w =>
    (w &&& 0xFF) :: (if w >>> 8 ≠ 0 then [w >>> 8] else [])).flatten

/-! ## Basic lemmas about the embedding -/

theorem setCell_same (f : Nat → Nat) (i v : Nat) : setCell f i v i = v := by
  simp [setCell]

theorem setCell_ne (f : Nat → Nat) (i v x : Nat) (h : x ≠ i) : setCell f i v x = f x := by
  simp [setCell, h]

theorem mem_read_ne (a : Nat) (mem : Nat → Nat) (input : List Nat) (h : a ≠ 0xFE00) :
    mem_read a mem input = (mem a, mem, input) := by
  simp [mem_read, h]


/-! ## C3: `mem_read` of the keyboard status register -/

/-- C3: `mem_read 0xFE00` polls non-blockingly: with a byte `b` pending it
sets cell `0xFE00` to `0x8000` and cell `0xFE02` to `b`, consuming that
byte, and returns the just-updated cell `0xFE00`; with no byte pending it
clears cell `0xFE00` and returns it; every other address is a plain load
of `memory[a]`. -/
theorem claim_C3 (mem : Nat → Nat) (input : List Nat) :
    (∀ b rest, input = b :: rest → b < 256 →
      mem_read 0xFE00 mem input =
        (0x8000, setCell (setCell mem 0xFE00 0x8000) 0xFE02 b, rest)) ∧
    (input = [] → mem_read 0xFE00 mem input = (0, setCell mem 0xFE00 0, [])) ∧
    (∀ a, a ≠ 0xFE00 → mem_read a mem input = (mem a, mem, input)) := by
  refine ⟨?_, ?_, ?_⟩
  · intro b rest hi hb
    subst hi
    have hbM : b % M = b := Nat.mod_eq_of_lt (lt_trans hb (by norm_num [M]))
    simp [mem_read, setCell, hbM]
  · intro hi
    subst hi
    simp [mem_read, setCell]
  · intro a ha
    simp [mem_read, ha]

/-- Witness for C3 at a concrete memory and input. -/
theorem claim_C3_witness :
    mem_read 0xFE00 (fun _ => 0) [65] =
      (0x8000, setCell (setCell (fun _ => 0) 0xFE00 0x8000) 0xFE02 65, []) ∧
    mem_read 0xFE02 (fun _ => 0) [65] = (0, fun _ => 0, [65]) := by
  exact ⟨(claim_C3 (fun _ => 0) [65]).1 65 [] rfl (by norm_num),
         (claim_C3 (fun _ => 0) [65]).2.2 0xFE02 (by norm_num)⟩

/-! ## C10: `mem_read` away from `0xFE00` is a pure load -/

/-- C10: for every address other than `0xFE00`, `mem_read` returns
`memory[a]` and changes nothing — memory and pending input are returned
untouched — and a `mem_write` at such an address followed by `mem_read`
returns the value written. -/
theorem claim_C10 (mem : Nat → Nat) (input : List Nat) (a v : Nat) (h : a ≠ 0xFE00) :
    mem_read a mem input = (mem a, mem, input) ∧
    mem_read a (mem_write a v mem) input = (v, mem_write a v mem, input) := by
  constructor
  · simp [mem_read, h]
  · simp [mem_read, h, mem_write, setCell]

/-- Witness for C10 at the keyboard data register `0xFE02`: writing then
reading it returns the stored value without polling the keyboard. -/
theorem claim_C10_witness :
    mem_read 0xFE02 (mem_write 0xFE02 7 (fun _ => 0)) [5] =
      (7, mem_write 0xFE02 7 (fun _ => 0), [5]) := by
  exact (claim_C10 (fun _ => 0) [5] 0xFE02 7 (by norm_num)).2

/-! ## C6: undefined trap vectors -/

/-- C6: a `TRAP` whose low 8 bits are not one of the six defined vectors
`0x20..0x25` only stores the post-increment PC into `R7`: every other
register, the memory, the pending input, the output and the running flag
are unchanged. -/
theorem claim_C6 (instr : Nat) (c : Config)
    (h : instr &&& 0xFF ∉ ([0x20, 0x21, 0x22, 0x23, 0x24, 0x25] : List Nat)) :
    op_trap instr c = { c with reg := setCell c.reg 7 (c.reg 8) } ∧
    (∀ r, r ≠ 7 → (op_trap instr c).reg r = c.reg r) ∧
    (op_trap instr c).mem = c.mem ∧ (op_trap instr c).input = c.input ∧
    (op_trap instr c).output = c.output ∧ (op_trap instr c).running = c.running := by
  simp only [List.mem_cons, List.not_mem_nil, or_false, not_or] at h
  obtain ⟨h1, h2, h3, h4, h5, h6⟩ := h
  have he : op_trap instr c = { c with reg := setCell c.reg 7 (c.reg 8) } := by
    unfold op_trap
    simp [h1, h2, h3, h4, h5, h6]
  refine ⟨he, ?_, ?_, ?_, ?_, ?_⟩ <;> rw [he]
  intro r hr
  exact setCell_ne c.reg 7 (c.reg 8) r hr

/-- Witness for C6: `TRAP 0x00` on a concrete configuration. -/
theorem claim_C6_witness :
    op_trap 0xF000 zeroConfig =
      { zeroConfig with reg := setCell zeroConfig.reg 7 (zeroConfig.reg 8) } := by
  exact (claim_C6 0xF000 zeroConfig (by decide)).1

/-! ## C2: `sign_extend` -/


/-- Counterexample to C2 as stated: the claim quantifies over every
16-bit `x`, but `sign_extend` never clears the bits of `x` above the
field.  At `x = 0x20`, `n = 5` the extracted 5-bit field is `0` with sign
bit `0`, so the claim requires bits `5..15` of the result to be `0`,
i.e. the result `0`; the code returns `0x20` unchanged. -/
theorem claim_C2_counterexample :
    sign_extend 0x20 5 = 0x20 ∧ ¬ signExtSpec 0x20 5 (sign_extend 0x20 5) := by
  constructor
  · rfl
  · decide

/-- C2 amended: for inputs that actually fit in the `n`-bit field
(`x < 2 ^ n`, which holds at every call site because callers mask `x`
first), `sign_extend x n` is the unique 16-bit value congruent to `x`
modulo `2 ^ n` whose bits `n..15` all equal bit `n - 1` of `x`. -/
theorem claim_C2 (x n : Nat) (hn : 0 < n) (hn16 : n ≤ 16) (hx : x < 2 ^ n) :
    signExtSpec x n (sign_extend x n) ∧
    ∀ y, signExtSpec x n y → y = sign_extend x n := by
  have hM : M = 2 ^ 16 := by norm_num [M]
  have hff : (0xFFFF : Nat) = 2 ^ 16 - 1 := by norm_num
  have hcond : ((x >>> (n - 1)) &&& 1 = 1) ↔ x.testBit (n - 1) = true := by
    rw [Nat.and_one_is_mod, Nat.shiftRight_eq_div_pow, Nat.testBit_to_div_mod]
    exact ⟨fun h => decide_eq_true h, fun h => of_decide_eq_true h⟩
  have hspec : signExtSpec x n (sign_extend x n) := by
    by_cases hb : x.testBit (n - 1) = true
    · have hy0 : sign_extend x n = (x ||| 0xFFFF <<< n) % M := by
        unfold sign_extend
        rw [if_pos (hcond.mpr hb)]
      refine ⟨?_, ?_, ?_⟩
      · rw [hy0]
        exact Nat.mod_lt _ (by norm_num [M])
      · rw [hy0, hM, Nat.mod_mod_of_dvd _ (pow_dvd_pow 2 hn16)]
        apply Nat.eq_of_testBit_eq
        intro i
        rw [Nat.testBit_mod_two_pow, Nat.testBit_mod_two_pow, Nat.testBit_or,
            Nat.testBit_shiftLeft]
        by_cases hin : i < n
        · simp [hin, Nat.not_le.mpr hin]
        · simp [hin]
      · intro i hi hni
        rw [hb, hy0, hM, Nat.testBit_mod_two_pow, Nat.testBit_or, Nat.testBit_shiftLeft,
            hff, Nat.testBit_two_pow_sub_one]
        have hsub : i - n < 16 := lt_of_le_of_lt (Nat.sub_le i n) hi
        simp [hi, hni, hsub, ge_iff_le]
    · rw [Bool.not_eq_true] at hb
      have hy0 : sign_extend x n = x := by
        unfold sign_extend
        rw [if_neg]
        intro h
        rw [hcond.1 h] at hb
        exact Bool.noConfusion hb
      rw [hy0]
      refine ⟨lt_of_lt_of_le hx (hM ▸ Nat.pow_le_pow_right (by norm_num) hn16), rfl, ?_⟩
      intro i hi hni
      have hxi : x < 2 ^ i := lt_of_lt_of_le hx (Nat.pow_le_pow_right (by norm_num) hni)
      rw [Nat.testBit_lt_two_pow hxi, hb]
  refine ⟨hspec, fun y hy => ?_⟩
  apply Nat.eq_of_testBit_eq
  intro i
  by_cases hi16 : i < 16
  · by_cases hni : n ≤ i
    · rw [hy.2.2 i hi16 hni, hspec.2.2 i hi16 hni]
    · have hin : i < n := Nat.lt_of_not_le hni
      have e1 : y.testBit i = (y % 2 ^ n).testBit i := by
        rw [Nat.testBit_mod_two_pow]
        simp [hin]
      have e2 : (sign_extend x n).testBit i = ((sign_extend x n) % 2 ^ n).testBit i := by
        rw [Nat.testBit_mod_two_pow]
        simp [hin]
      rw [e1, e2, hy.2.1, hspec.2.1]
  · have h16 : (16 : Nat) ≤ i := Nat.le_of_not_lt hi16
    have hpow : 2 ^ 16 ≤ 2 ^ i := Nat.pow_le_pow_right (by norm_num) h16
    rw [Nat.testBit_lt_two_pow (lt_of_lt_of_le (hM ▸ hy.1) hpow),
        Nat.testBit_lt_two_pow (lt_of_lt_of_le (hM ▸ hspec.1) hpow)]

/-- Witness for C2 at `x = 0x1F`, `n = 5`: a negative immediate extends
to `0xFFFF` and is the unique such value. -/
theorem claim_C2_witness :
    (0 < 5 ∧ 5 ≤ 16 ∧ 0x1F < 2 ^ 5) ∧
    (signExtSpec 0x1F 5 (sign_extend 0x1F 5) ∧
      ∀ y, signExtSpec 0x1F 5 y → y = sign_extend 0x1F 5) := by
  exact ⟨⟨by norm_num, by norm_num, by norm_num⟩,
         claim_C2 0x1F 5 (by norm_num) (by norm_num) (by norm_num)⟩

/-! ## C1: condition flags after register writes -/


theorem mod_M_lt (x : Nat) : x % M < M :=
  Nat.mod_lt _ (by norm_num [M])

theorem and_lt_M (x y : Nat) (hy : y < M) : x &&& y < M := by
  have hM : M = 2 ^ 16 := by norm_num [M]
  rw [hM] at hy ⊢
  exact Nat.and_lt_two_pow _ hy

theorem xor_lt_M (x y : Nat) (hx : x < M) (hy : y < M) : x ^^^ y < M := by
  have hM : M = 2 ^ 16 := by norm_num [M]
  rw [hM] at hx hy ⊢
  exact Nat.xor_lt_two_pow hx hy

/-- `sign_extend` yields a 16-bit value whenever its input is one. -/
theorem sign_extend_lt (x n : Nat) (hx : x < M) : sign_extend x n < M := by
  unfold sign_extend
  split
  · exact Nat.mod_lt _ (by norm_num [M])
  · exact hx

/-- `mem_read` returns a 16-bit value and preserves 16-bit-ness of
memory, whenever memory held 16-bit values. -/
theorem setCell_lt (f : Nat → Nat) (i v : Nat) (hf : ∀ x, f x < M) (hv : v < M) :
    ∀ x, setCell f i v x < M := by
  intro x
  unfold setCell
  split
  · exact hv
  · exact hf x

theorem mem_read_lt (a : Nat) (mem : Nat → Nat) (input : List Nat) (hmem : ∀ x, mem x < M) :
    (mem_read a mem input).1 < M ∧ ∀ x, (mem_read a mem input).2.1 x < M := by
  unfold mem_read
  by_cases h : a = 0xFE00
  · subst h
    rw [if_pos rfl]
    cases input with
    | nil =>
      have hw : ∀ x, setCell mem 0xFE00 0 x < M :=
        setCell_lt mem 0xFE00 0 hmem (by norm_num [M])
      exact ⟨hw 0xFE00, hw⟩
    | cons b rest =>
      have hw : ∀ x, setCell (setCell mem 0xFE00 0x8000) 0xFE02 (b % M) x < M :=
        setCell_lt _ 0xFE02 _ (setCell_lt mem 0xFE00 0x8000 hmem (by norm_num [M]))
          (Nat.mod_lt _ (by norm_num [M]))
      exact ⟨hw 0xFE00, hw⟩
  · rw [if_neg h]
    exact ⟨hmem a, hmem⟩

/-- `update_condition_flags r` establishes the claim's flag invariant for
the (16-bit) value held in register `r`, for any register other than
`COND` itself. -/
theorem update_flags_matches (reg : Nat → Nat) (r : Nat) (hr : r ≠ 9) (hv : reg r < M) :
    condMatches ((update_condition_flags reg r) 9) ((update_condition_flags reg r) r) := by
  have hv' : reg r < 65536 := hv
  have hq : reg r >>> 15 < 2 := by
    rw [Nat.shiftRight_eq_div_pow]
    have hp : (2 : Nat) ^ 15 = 32768 := by norm_num
    rw [hp]
    omega
  have hbit : (reg r).testBit 15 = decide (reg r >>> 15 = 1) := by
    rw [Nat.testBit_to_div_mod, ← Nat.shiftRight_eq_div_pow,
        Nat.mod_eq_of_lt hq]
  unfold update_condition_flags
  split
  case isTrue h0 =>
    rw [setCell_same, setCell_ne _ _ _ _ hr, h0]
    decide
  case isFalse h0 =>
    split
    case isTrue hneg =>
      rw [setCell_same, setCell_ne _ _ _ _ hr]
      have h1 : (reg r).testBit 15 = true := by
        rw [hbit]
        simp only [decide_eq_true_eq]
        omega
      refine ⟨Or.inl rfl, by simp [h1], ?_, ?_⟩
      · exact ⟨fun h => absurd h (by norm_num), fun h => absurd h h0⟩
      · constructor
        · intro h
          exact absurd h (by norm_num)
        · rintro ⟨hf, -⟩
          rw [h1] at hf
          exact Bool.noConfusion hf
    case isFalse hneg =>
      rw [setCell_same, setCell_ne _ _ _ _ hr]
      have hz : reg r >>> 15 = 0 := by omega
      have h1 : (reg r).testBit 15 = false := by
        rw [hbit, hz]
        decide
      refine ⟨Or.inr (Or.inr rfl), ?_, ?_, ?_⟩
      · constructor
        · intro h
          exact absurd h (by norm_num)
        · intro h
          rw [h1] at h
          exact Bool.noConfusion h
      · exact ⟨fun h => absurd h (by norm_num), fun h => absurd h h0⟩
      · exact ⟨fun _ => ⟨h1, h0⟩, fun _ => rfl⟩


/-- Counterexample to C1 as stated: the claim covers JSR writing `R7`,
but `op_jsr` performs no flag update.  After executing the JSR-family
instruction at `0x3000`, `R7` holds the positive value `0x3001` while
`COND` still holds `ZRO = 2`, which is not the flag assignment the claim
requires for the written value. -/
theorem claim_C1_counterexample :
    (step jsrrConfig).reg 7 = 0x3001 ∧ (step jsrrConfig).reg 9 = 2 ∧
    ¬ condMatches 2 0x3001 := by
  decide

/-- C1 amended: the flag invariant holds for every instruction that goes
through `update_condition_flags` — ADD, AND, NOT, LD, LDI, LDR, LEA —
for any 16-bit machine state; JSR and TRAP (including the GETC/IN
service routines) write registers without touching `COND`, which keeps
its previous value. -/
theorem claim_C1 (c : Config) (instr : Nat)
    (hreg : ∀ i, c.reg i < M) (hmem : ∀ a, c.mem a < M) :
    condMatches ((op_add instr c).reg 9) ((op_add instr c).reg ((instr >>> 9) &&& 0x7)) ∧
    condMatches ((op_and instr c).reg 9) ((op_and instr c).reg ((instr >>> 9) &&& 0x7)) ∧
    condMatches ((op_not instr c).reg 9) ((op_not instr c).reg ((instr >>> 9) &&& 0x7)) ∧
    condMatches ((op_ld instr c).reg 9) ((op_ld instr c).reg ((instr >>> 9) &&& 0x7)) ∧
    condMatches ((op_ldi instr c).reg 9) ((op_ldi instr c).reg ((instr >>> 9) &&& 0x7)) ∧
    condMatches ((op_ldr instr c).reg 9) ((op_ldr instr c).reg ((instr >>> 9) &&& 0x7)) ∧
    condMatches ((op_lea instr c).reg 9) ((op_lea instr c).reg ((instr >>> 9) &&& 0x7)) ∧
    (op_jsr instr c).reg 9 = c.reg 9 ∧
    (op_trap instr c).reg 9 = c.reg 9 := by
  have hdr : (instr >>> 9) &&& 0x7 ≠ 9 := by
    have h8 : (instr >>> 9) &&& 0x7 < M := and_lt_M _ _ (by norm_num [M])
    have h8' : (instr >>> 9) &&& 0x7 ≤ 0x7 := Nat.and_le_right
    omega
  refine ⟨?_, ?_, ?_, ?_, ?_, ?_, ?_, ?_, ?_⟩
  · simp only [op_add]
    split
    · apply update_flags_matches _ _ hdr
      rw [setCell_same]
      exact mod_M_lt _
    · apply update_flags_matches _ _ hdr
      rw [setCell_same]
      exact mod_M_lt _
  · simp only [op_and]
    split
    · apply update_flags_matches _ _ hdr
      rw [setCell_same]
      exact and_lt_M _ _ (sign_extend_lt _ 5 (and_lt_M _ _ (by norm_num [M])))
    · apply update_flags_matches _ _ hdr
      rw [setCell_same]
      exact and_lt_M _ _ (hreg _)
  · simp only [op_not]
    apply update_flags_matches _ _ hdr
    rw [setCell_same]
    exact xor_lt_M _ _ (hreg _) (by norm_num [M])
  · simp only [op_ld]
    apply update_flags_matches _ _ hdr
    rw [setCell_same]
    exact (mem_read_lt _ c.mem c.input hmem).1
  · simp only [op_ldi]
    apply update_flags_matches _ _ hdr
    rw [setCell_same]
    exact (mem_read_lt _ _ _ (mem_read_lt _ c.mem c.input hmem).2).1
  · simp only [op_ldr]
    apply update_flags_matches _ _ hdr
    rw [setCell_same]
    exact (mem_read_lt _ c.mem c.input hmem).1
  · simp only [op_lea]
    apply update_flags_matches _ _ hdr
    rw [setCell_same]
    exact mod_M_lt _
  · simp only [op_jsr]
    split <;> simp [setCell]
  · unfold op_trap trap_getc trap_out trap_puts trap_in trap_putsp trap_halt
    dsimp only
    split_ifs <;> cases hci : c.input <;> simp [setCell]

/-- Witness for C1 on the all-zero machine executing `ADD R0, R0, #1`. -/
theorem claim_C1_witness :
    (∀ i, zeroConfig.reg i < M) ∧ (∀ a, zeroConfig.mem a < M) ∧
    condMatches ((op_add 0x1021 zeroConfig).reg 9)
      ((op_add 0x1021 zeroConfig).reg ((0x1021 >>> 9) &&& 0x7)) := by
  have hr : ∀ i, zeroConfig.reg i < M := fun i => by norm_num [zeroConfig, M]
  have hm : ∀ a, zeroConfig.mem a < M := fun a => by norm_num [zeroConfig, M]
  exact ⟨hr, hm, (claim_C1 zeroConfig 0x1021 hr hm).1⟩

/-! ## C4: JSR / JSRR -/

/-- Counterexample to C4 as stated: for `JSRR` with `BaseR = R7` the
claim requires `PC` to become the value `R7` held before the instruction
(`0x1234`), but the code stores the post-increment `PC` into `R7` first
and then reads the base register, so `PC` becomes `0x3001`. -/
theorem claim_C4_counterexample :
    jsrrConfig.reg 7 = 0x1234 ∧
    (step jsrrConfig).reg 8 = 0x3001 ∧ (step jsrrConfig).reg 7 = 0x3001 ∧
    (0x3001 : Nat) ≠ 0x1234 := by
  decide

/-- C4 amended: `op_jsr` stores the post-increment `PC` (register 8 at
handler entry) into `R7`; with bit 11 set, `PC` becomes `PC +
PCoffset11`; with bit 11 clear it becomes the base register as read
after the `R7` update — the pre-instruction value for `BaseR ≠ R7`, but
the post-increment `PC` itself for `BaseR = R7`. -/
theorem claim_C4 (instr : Nat) (c : Config) :
    (op_jsr instr c).reg 7 = c.reg 8 ∧
    ((instr >>> 11) &&& 0x1 = 1 →
      (op_jsr instr c).reg 8 = (c.reg 8 + sign_extend (instr &&& 0x7FF) 11) % M) ∧
    ((instr >>> 11) &&& 0x1 = 0 → (instr >>> 6) &&& 0x7 ≠ 7 →
      (op_jsr instr c).reg 8 = c.reg ((instr >>> 6) &&& 0x7)) ∧
    ((instr >>> 11) &&& 0x1 = 0 → (instr >>> 6) &&& 0x7 = 7 →
      (op_jsr instr c).reg 8 = c.reg 8) ∧
    (∀ r, r ≠ 7 → r ≠ 8 → (op_jsr instr c).reg r = c.reg r) := by
  refine ⟨?_, ?_, ?_, ?_, ?_⟩
  · simp only [op_jsr]
    split <;> simp [setCell]
  · intro h1
    simp only [op_jsr]
    rw [if_pos h1]
    simp [setCell]
  · intro h1 hb
    simp only [op_jsr]
    rw [if_neg (by omega)]
    simp only [setCell_same]
    rw [setCell_ne _ _ _ _ hb]
  · intro h1 hb
    simp only [op_jsr]
    rw [if_neg (by omega)]
    simp only [setCell_same]
    rw [hb, setCell_same]
  · intro r h7 h8
    simp only [op_jsr]
    split <;> simp [setCell, h7, h8]

/-- Witness for C4: `JSRR R7` on the all-zero machine keeps `PC = 0`,
the post-increment `PC` stored into `R7`. -/
theorem claim_C4_witness :
    ((0x41C0 >>> 11) &&& 0x1 = 0 ∧ (0x41C0 >>> 6) &&& 0x7 = 7) ∧
    (op_jsr 0x41C0 zeroConfig).reg 8 = zeroConfig.reg 8 := by
  exact ⟨⟨by decide, by decide⟩,
         (claim_C4 0x41C0 zeroConfig).2.2.2.1 (by decide) (by decide)⟩

/-! ## C7: RTI / RES abort -/


/-- Counterexample to C7 as stated: executing `RTI` does reach the
`abort()` arm, but `restore_input_buffering` runs only after a normal
exit of the `while` loop, which `abort()` never reaches — the claim's
"the terminal is restored before the process exits" is false. -/
theorem claim_C7_counterexample :
    (mainLoop rtiConfig 3).aborted = true ∧
    (mainLoop rtiConfig 3).terminalRestored = false := by
  decide

/-- C7 amended: fetching an instruction with top nibble `0x8` (RTI) or
`0xD` (RES) makes the very next step reach `abort()`; no further
instruction executes (the loop result is exactly that aborted state, for
every remaining fuel), but the terminal is NOT restored on this path. -/
theorem claim_C7 (c : Config) (n : Nat)
    (hrun : c.running = true) (hab : c.aborted = false)
    (hterm : c.terminalRestored = false)
    (hop : (mem_read (c.reg 8) c.mem c.input).1 >>> 12 = 8 ∨
      (mem_read (c.reg 8) c.mem c.input).1 >>> 12 = 13) :
    mainLoop c (n + 2) = step c ∧ (step c).aborted = true ∧
    (step c).terminalRestored = false := by
  have hcond : (c.running && !c.aborted) = true := by
    rw [hrun, hab]
    rfl
  have hstep : (step c).aborted = true ∧ (step c).terminalRestored = false := by
    unfold step
    rw [if_pos hcond]
    dsimp only
    rcases hop with h | h <;> rw [h] <;> norm_num <;> exact hterm
  refine ⟨?_, hstep⟩
  have h1 : mainLoop c (n + 2) = mainLoop (step c) (n + 1) := by
    show mainLoop c (n + 1 + 1) = mainLoop (step c) (n + 1)
    unfold mainLoop
    rw [hab, hrun]
    rfl
  have h2 : mainLoop (step c) (n + 1) = step c := by
    unfold mainLoop
    rw [hstep.1]
    rfl
  rw [h1, h2]

/-- Witness for C7 on the concrete `RTI` boot configuration. -/
theorem claim_C7_witness :
    mainLoop rtiConfig 2 = step rtiConfig ∧ (step rtiConfig).aborted = true ∧
    (step rtiConfig).terminalRestored = false := by
  exact claim_C7 rtiConfig 0 rfl rfl rfl (Or.inl (by decide))

/-! ## C5: the image loader -/


/-- `swap16` turns the little-endian host reading of two file bytes into
the big-endian word value. -/
theorem swap16_bytes (b0 b1 : Nat) (h0 : b0 < 256) (h1 : b1 < 256) :
    swap16 (b0 + 256 * b1) = 256 * b0 + b1 := by
  unfold swap16
  have e1 : (b0 + 256 * b1) >>> 8 = b1 := by
    rw [Nat.shiftRight_eq_div_pow]
    have : (2 : Nat) ^ 8 = 256 := by norm_num
    rw [this]
    omega
  have e2 : (b0 + 256 * b1) <<< 8 = 2 ^ 8 * (b0 + 256 * b1) := by
    rw [Nat.shiftLeft_eq]
    ring
  rw [e1, e2, ← Nat.mul_add_lt_is_or (lt_of_lt_of_le h1 (by norm_num))]
  have : (2 : Nat) ^ 8 = 256 := by norm_num
  rw [this]
  have hM : M = 65536 := rfl
  rw [hM]
  omega

theorem hostWords_zero (bytes : List Nat) : hostWords bytes 0 = [] := by
  cases bytes with
  | nil => rfl
  | cons b t => cases t <;> rfl

/-- The load loop `fread`-then-`swap16` delivers exactly the first `k`
big-endian words of the payload. -/
theorem hostWords_map_swap : ∀ (bytes : List Nat) (k : Nat),
    (∀ b ∈ bytes, b < 256) →
    (hostWords bytes k).map swap16 = (beWords bytes).take k
  | [], k, _ => by simp [hostWords, beWords]
  | [b], k, _ => by simp [hostWords, beWords]
  | b0 :: b1 :: rest, 0, _ => by simp [hostWords_zero, beWords]
  | b0 :: b1 :: rest, k + 1, hb => by
    have h0 : b0 < 256 := hb b0 (by simp)
    have h1 : b1 < 256 := hb b1 (by simp)
    have ih := hostWords_map_swap rest k (fun b hbm => hb b (by simp [hbm]))
    simp only [hostWords, beWords, List.map_cons, List.take_succ_cons, ih,
      swap16_bytes b0 b1 h0 h1]

/-- Cells outside the stored range are untouched by `storeAt`. -/
theorem storeAt_out : ∀ (ws : List Nat) (mem : Nat → Nat) (o a : Nat),
    (a < o ∨ o + ws.length ≤ a) → storeAt mem o ws a = mem a
  | [], mem, o, a, _ => rfl
  | w :: ws, mem, o, a, h => by
    have hrec : storeAt (setCell mem o w) (o + 1) ws a = setCell mem o w a := by
      apply storeAt_out
      rcases h with h | h
      · exact Or.inl (by omega)
      · right
        simp only [List.length_cons] at h
        omega
    have hne : a ≠ o := by
      rcases h with h | h
      · omega
      · simp only [List.length_cons] at h
        omega
    rw [storeAt, hrec, setCell_ne _ _ _ _ hne]

/-- Cells in the stored range receive the corresponding word. -/
theorem storeAt_get : ∀ (ws : List Nat) (mem : Nat → Nat) (o i : Nat),
    i < ws.length → storeAt mem o ws (o + i) = ws.getD i 0
  | w :: ws, mem, o, 0, _ => by
    have hout := storeAt_out ws (setCell mem o w) (o + 1) o (Or.inl (by omega))
    simp only [storeAt, Nat.add_zero, hout, setCell_same, List.getD_cons_zero]
  | w :: ws, mem, o, i + 1, h => by
    have ih := storeAt_get ws (setCell mem o w) (o + 1) i
      (by simp only [List.length_cons] at h; omega)
    have harith : o + (i + 1) = o + 1 + i := by omega
    rw [storeAt, harith, ih, List.getD_cons_succ]

/-- Counterexample to C5 as stated: the claim demands that an image with
`origin = 0` load up to `65536` words, here the single word `0x1234` at
address `0`; but `max_read = MAX_MEMORY - origin` is computed in
`uint16_t`, so `65536 - 0` truncates to `0` and nothing is loaded. -/
theorem claim_C5_counterexample :
    read_image_file [0, 0, 0x12, 0x34] (fun _ => 0) 0 = 0 ∧ (0 : Nat) ≠ 0x1234 := by
  decide

/-- C5 amended: for every image whose origin is non-zero the loader
behaves as claimed — it parses the first two bytes as the big-endian
origin, loads up to `65536 - origin` byte-swapped words contiguously at
`mem[origin..]`, tolerates short files silently, and leaves all other
cells untouched; but for `origin = 0` the `uint16_t` count truncates to
`0` and the loader stores nothing at all. -/
theorem claim_C5 (b0 b1 : Nat) (rest : List Nat) (mem : Nat → Nat)
    (hb0 : b0 < 256) (hb1 : b1 < 256) (hrest : ∀ b ∈ rest, b < 256)
    (h0 : 256 * b0 + b1 ≠ 0) :
    (∀ i, i < ((beWords rest).take (65536 - (256 * b0 + b1))).length →
      read_image_file (b0 :: b1 :: rest) mem (256 * b0 + b1 + i) =
        ((beWords rest).take (65536 - (256 * b0 + b1))).getD i 0) ∧
    (∀ a, a < 256 * b0 + b1 ∨
        256 * b0 + b1 + ((beWords rest).take (65536 - (256 * b0 + b1))).length ≤ a →
      read_image_file (b0 :: b1 :: rest) mem a = mem a) ∧
    (∀ rest2 mem2, read_image_file (0 :: 0 :: rest2) mem2 = mem2) := by
  have horigin : swap16 (b0 + 256 * b1) = 256 * b0 + b1 := swap16_bytes _ _ hb0 hb1
  have hmax : (65536 - (256 * b0 + b1)) % M = 65536 - (256 * b0 + b1) := by
    apply Nat.mod_eq_of_lt
    have hM : M = 65536 := rfl
    omega
  have hws : (hostWords rest ((65536 - (256 * b0 + b1)) % M)).map swap16 =
      (beWords rest).take (65536 - (256 * b0 + b1)) := by
    rw [hmax]
    exact hostWords_map_swap rest _ hrest
  have hrif : read_image_file (b0 :: b1 :: rest) mem =
      storeAt mem (256 * b0 + b1) ((beWords rest).take (65536 - (256 * b0 + b1))) := by
    simp only [read_image_file]
    rw [horigin, hws]
  refine ⟨?_, ?_, ?_⟩
  · intro i hi
    rw [hrif]
    exact storeAt_get _ mem _ i hi
  · intro a ha
    rw [hrif]
    exact storeAt_out _ mem _ a ha
  · intro rest2 mem2
    simp only [read_image_file]
    have hsw0 : swap16 (0 + 256 * 0) = 0 := by decide
    rw [hsw0]
    have hmr0 : (65536 - 0) % M = 0 := by decide
    rw [hmr0, hostWords_zero]
    rfl

/-- Witness for C5: a one-word image at origin `0x3000`. -/
theorem claim_C5_witness :
    (∀ b ∈ ([0x12, 0x34] : List Nat), b < 256) ∧
    read_image_file [0x30, 0x00, 0x12, 0x34] (fun _ => 0) (256 * 0x30 + 0x00 + 0) =
      ((beWords [0x12, 0x34]).take (65536 - (256 * 0x30 + 0x00))).getD 0 0 := by
  refine ⟨by decide, ?_⟩
  exact (claim_C5 0x30 0x00 [0x12, 0x34] (fun _ => 0) (by norm_num) (by norm_num)
    (by decide) (by norm_num)).1 0 (by decide)

/-! ## C8: PUTSP -/


/-- The PUTSP loop computes exactly the spec-side byte sequence, as long
as a zero word exists within the scanned range. -/
theorem putsp_go_spec : ∀ (fuel : Nat) (mem : Nat → Nat) (i : Nat),
    (∃ j, i ≤ j ∧ j < i + fuel ∧ mem j = 0) →
    putsp_go mem i fuel = putspBytes ((List.range' i fuel).map mem)
  | 0, mem, i, h => by
    exfalso
    obtain ⟨j, h1, h2, _⟩ := h
    omega
  | fuel + 1, mem, i, h => by
    unfold putsp_go
    by_cases h0 : mem i = 0
    · rw [if_pos h0]
      simp [putspBytes, List.range'_succ, List.takeWhile_cons, h0]
    · rw [if_neg h0]
      have hex : ∃ j, i + 1 ≤ j ∧ j < i + 1 + fuel ∧ mem j = 0 := by
        obtain ⟨j, h1, h2, h3⟩ := h
        refine ⟨j, ?_, by omega, h3⟩
        rcases Nat.eq_or_lt_of_le h1 with he | hl
        · exact absurd (he ▸ h3) h0
        · omega
      have ih := putsp_go_spec fuel mem (i + 1) hex
      rw [ih]
      simp [putspBytes, List.range'_succ, List.takeWhile_cons, h0]

/-- C8: when some cell at or after `R0` is zero, PUTSP emits, for each
word strictly before the first zero word, the low byte and then the high
byte only if non-zero (so a final word with zero high byte emits no
stray NUL), it stops at the first zero word, and it leaves registers,
memory and input untouched. -/
theorem claim_C8 (c : Config)
    (h : ∃ j, c.reg 0 ≤ j ∧ j < 65536 ∧ c.mem j = 0) :
    (trap_putsp c).output =
      c.output ++ putspBytes ((List.range' (c.reg 0) (65536 - c.reg 0)).map c.mem) ∧
    (trap_putsp c).reg = c.reg ∧ (trap_putsp c).mem = c.mem ∧
    (trap_putsp c).input = c.input := by
  have hfe : ∃ j, c.reg 0 ≤ j ∧ j < c.reg 0 + (65536 - c.reg 0) ∧ c.mem j = 0 := by
    obtain ⟨j, h1, h2, h3⟩ := h
    exact ⟨j, h1, by omega, h3⟩
  refine ⟨?_, rfl, rfl, rfl⟩
  show c.output ++ putsp_go c.mem (c.reg 0) (65536 - c.reg 0) = _
  rw [putsp_go_spec _ _ _ hfe]


/-- Witness for C8: the string `"A"` with zero high byte emits exactly
one byte. -/
theorem claim_C8_witness :
    (∃ j, putspConfig.reg 0 ≤ j ∧ j < 65536 ∧ putspConfig.mem j = 0) ∧
    (trap_putsp putspConfig).output =
      putspConfig.output ++
        putspBytes ((List.range' (putspConfig.reg 0)
          (65536 - putspConfig.reg 0)).map putspConfig.mem) := by
  have hj : ∃ j, putspConfig.reg 0 ≤ j ∧ j < 65536 ∧ putspConfig.mem j = 0 :=
    ⟨0x3001, by decide, by decide, by decide⟩
  exact ⟨hj, (claim_C8 putspConfig hj).1⟩

/-! ## C9: runs without input operations are input-oblivious -/

theorem obs_setInput (c : Config) (i : List Nat) : obs (setInput c i) = obs c := rfl

theorem usesInput_setInput (c : Config) (i : List Nat) :
    usesInput (setInput c i) = usesInput c := rfl

theorem op_br_setInput (instr : Nat) (c : Config) (i : List Nat) :
    op_br instr (setInput c i) = setInput (op_br instr c) i := by
  unfold op_br setInput
  dsimp only
  split <;> rfl

theorem op_jsr_setInput (instr : Nat) (c : Config) (i : List Nat) :
    op_jsr instr (setInput c i) = setInput (op_jsr instr c) i := by
  unfold op_jsr setInput
  dsimp only
  split <;> rfl

theorem op_trap_setInput (instr : Nat) (c : Config) (i : List Nat)
    (h20 : instr &&& 0xFF ≠ 0x20) (h23 : instr &&& 0xFF ≠ 0x23) :
    op_trap instr (setInput c i) = setInput (op_trap instr c) i := by
  unfold op_trap setInput
  dsimp only
  rw [if_neg h20, if_neg h20, if_neg h23, if_neg h23]
  split <;> try rfl
  split <;> try rfl
  split <;> try rfl
  split <;> rfl

/-- One dispatch step of a configuration whose next instruction performs
no input operation neither reads nor depends on the pending input: the
step commutes with replacing the input. -/
theorem step_setInput (c : Config) (i : List Nat) (h : usesInput c = false) :
    step (setInput c i) = setInput (step c) i := by
  by_cases hrun : (c.running && !c.aborted) = true
  case neg =>
    unfold step setInput
    dsimp only
    rw [if_neg hrun, if_neg hrun]
  case pos =>
    unfold usesInput at h
    rw [if_pos hrun] at h
    by_cases hpc : c.reg 8 = 0xFE00
    · rw [if_pos hpc] at h
      exact absurd h (by simp)
    · rw [if_neg hpc] at h
      dsimp only at h
      unfold step setInput
      dsimp only
      rw [if_pos hrun, if_pos hrun]
      rw [mem_read_ne (c.reg 8) c.mem i hpc, mem_read_ne (c.reg 8) c.mem c.input hpc]
      dsimp only
      by_cases e1 : c.mem (c.reg 8) >>> 12 = 1
      · rw [if_pos e1, if_pos e1]
        rfl
      rw [if_neg e1, if_neg e1]
      by_cases e5 : c.mem (c.reg 8) >>> 12 = 5
      · rw [if_pos e5, if_pos e5]
        rfl
      rw [if_neg e5, if_neg e5]
      by_cases e9 : c.mem (c.reg 8) >>> 12 = 9
      · rw [if_pos e9, if_pos e9]
        rfl
      rw [if_neg e9, if_neg e9]
      by_cases e0 : c.mem (c.reg 8) >>> 12 = 0
      · rw [if_pos e0, if_pos e0]
        exact op_br_setInput (c.mem (c.reg 8))
          ⟨setCell c.reg 8 ((c.reg 8 + 1) % M), c.mem, c.input, c.output,
            c.running, c.aborted, c.terminalRestored⟩ i
      rw [if_neg e0, if_neg e0]
      by_cases e12 : c.mem (c.reg 8) >>> 12 = 12
      · rw [if_pos e12, if_pos e12]
        rfl
      rw [if_neg e12, if_neg e12]
      by_cases e4 : c.mem (c.reg 8) >>> 12 = 4
      · rw [if_pos e4, if_pos e4]
        exact op_jsr_setInput (c.mem (c.reg 8))
          ⟨setCell c.reg 8 ((c.reg 8 + 1) % M), c.mem, c.input, c.output,
            c.running, c.aborted, c.terminalRestored⟩ i
      rw [if_neg e4, if_neg e4]
      by_cases e2 : c.mem (c.reg 8) >>> 12 = 2
      · rw [if_pos e2, if_pos e2]
        rw [if_pos e2] at h
        have haddr := of_decide_eq_false h
        unfold op_ld
        dsimp only
        simp only [setCell_same]
        rw [mem_read_ne _ c.mem i haddr, mem_read_ne _ c.mem c.input haddr]
      rw [if_neg e2, if_neg e2]
      rw [if_neg e2] at h
      by_cases e10 : c.mem (c.reg 8) >>> 12 = 10
      · rw [if_pos e10, if_pos e10]
        rw [if_pos e10] at h
        simp only [Bool.or_eq_false_iff, decide_eq_false_iff_not] at h
        obtain ⟨ha1, ha2⟩ := h
        unfold op_ldi
        dsimp only
        simp only [setCell_same]
        rw [mem_read_ne _ c.mem i ha1, mem_read_ne _ c.mem c.input ha1]
        dsimp only
        rw [mem_read_ne _ c.mem i ha2, mem_read_ne _ c.mem c.input ha2]
      rw [if_neg e10, if_neg e10]
      rw [if_neg e10] at h
      by_cases e6 : c.mem (c.reg 8) >>> 12 = 6
      · rw [if_pos e6, if_pos e6]
        rw [if_pos e6] at h
        have haddr := of_decide_eq_false h
        have hb : (c.mem (c.reg 8) >>> 6) &&& 0x7 ≠ 8 := by
          have hle : (c.mem (c.reg 8) >>> 6) &&& 0x7 ≤ 0x7 := Nat.and_le_right
          omega
        unfold op_ldr
        dsimp only
        simp only [setCell_ne _ _ _ _ hb]
        rw [mem_read_ne _ c.mem i haddr, mem_read_ne _ c.mem c.input haddr]
      rw [if_neg e6, if_neg e6]
      rw [if_neg e6] at h
      by_cases e14 : c.mem (c.reg 8) >>> 12 = 14
      · rw [if_pos e14, if_pos e14]
        rfl
      rw [if_neg e14, if_neg e14]
      by_cases e3 : c.mem (c.reg 8) >>> 12 = 3
      · rw [if_pos e3, if_pos e3]
        rfl
      rw [if_neg e3, if_neg e3]
      by_cases e11 : c.mem (c.reg 8) >>> 12 = 11
      · rw [if_pos e11, if_pos e11]
        rw [if_pos e11] at h
        have haddr := of_decide_eq_false h
        unfold op_sti
        dsimp only
        simp only [setCell_same]
        rw [mem_read_ne _ c.mem i haddr, mem_read_ne _ c.mem c.input haddr]
      rw [if_neg e11, if_neg e11]
      rw [if_neg e11] at h
      by_cases e7 : c.mem (c.reg 8) >>> 12 = 7
      · rw [if_pos e7, if_pos e7]
        rfl
      rw [if_neg e7, if_neg e7]
      by_cases e15 : c.mem (c.reg 8) >>> 12 = 15
      · rw [if_pos e15, if_pos e15]
        rw [if_pos e15] at h
        simp only [Bool.or_eq_false_iff, decide_eq_false_iff_not] at h
        obtain ⟨h20, h23⟩ := h
        exact op_trap_setInput (c.mem (c.reg 8))
          ⟨setCell c.reg 8 ((c.reg 8 + 1) % M), c.mem, c.input, c.output,
            c.running, c.aborted, c.terminalRestored⟩ i h20 h23
      rw [if_neg e15, if_neg e15]

/-- Iterated form of `step_setInput`. -/
theorem steps_setInput (c : Config) (i : List Nat) :
    ∀ k, (∀ m, m < k → usesInput (step^[m] c) = false) →
      step^[k] (setInput c i) = setInput (step^[k] c) i
  | 0, _ => rfl
  | k + 1, h => by
    rw [Function.iterate_succ_apply', Function.iterate_succ_apply',
        steps_setInput c i k (fun m hm => h m (by omega)),
        step_setInput _ i (h k (by omega))]

/-- C9: a run that performs no input operation — it never reads `0xFE00`
(not even as a fetch address) and never executes the GETC or IN traps —
is deterministic in everything except the untouched pending input: two
runs from the same registers, memory and flags, under any two pending
host inputs, agree on registers, memory, output and status after every
step. -/
theorem claim_C9 (c : Config) (i1 i2 : List Nat) (n : Nat)
    (h : ∀ k, k < n → usesInput (step^[k] (setInput c i1)) = false) :
    ∀ k, k ≤ n → obs (step^[k] (setInput c i1)) = obs (step^[k] (setInput c i2)) := by
  have hb : ∀ k, k < n → usesInput (step^[k] c) = false := by
    intro k
    induction k using Nat.strong_induction_on with
    | _ k ih =>
      intro hk
      have hprev : ∀ m, m < k → usesInput (step^[m] c) = false :=
        fun m hm => ih m hm (lt_trans hm hk)
      have he := steps_setInput c i1 k hprev
      have hk' := h k hk
      rw [he] at hk'
      exact hk'
  intro k hk
  have h1 := steps_setInput c i1 k (fun m hm => hb m (lt_of_lt_of_le hm hk))
  have h2 := steps_setInput c i2 k (fun m hm => hb m (lt_of_lt_of_le hm hk))
  rw [h1, h2]
  rfl

/-- Witness for C9: two steps of the all-zero machine (which executes
`BR` with `nzp = 0`) under empty and non-empty pending input. -/
theorem claim_C9_witness :
    (∀ k, k < 2 → usesInput (step^[k] (setInput zeroConfig [])) = false) ∧
    (∀ k, k ≤ 2 →
      obs (step^[k] (setInput zeroConfig [])) = obs (step^[k] (setInput zeroConfig [65]))) := by
  have hp : ∀ k, k < 2 → usesInput (step^[k] (setInput zeroConfig [])) = false := by decide
  exact ⟨hp, claim_C9 zeroConfig [] [65] 2 hp⟩

end LC3
